import Mathlib

/-!
Verification of the dwitch distributed layer-2 switch against its
specification.  The Rust sources are shallowly embedded: hash maps become
association lists, bounded mpsc queues become lists of queued values,
machine integers become `Nat` (with explicit `% 2 ^ w` where overflow
matters), and fallible or panicking code returns `Option`.
-/

namespace Dwitch

/-! ## Association-list model of `std::collections::HashMap`

`mapLookup`/`mapInsert`/`mapErase` model `HashMap::get`, `HashMap::insert`
(overwriting) and `HashMap::remove`.  `keyInsert`/`keyRemove` model the same
operations on a map whose values are irrelevant to the claims (only key
membership is observed), e.g. the `TapTable` senders. -/

def mapLookup {α β : Type} [DecidableEq α] (k : α) : List (α × β) → Option β
  | [] => none
  | (k', v) :: rest => if k' = k then some v else mapLookup k rest

def mapErase {α β : Type} [DecidableEq α] (k : α) (m : List (α × β)) : List (α × β) :=
  m.filter (fun p => decide (p.1 ≠ k))

def mapInsert {α β : Type} [DecidableEq α] (k : α) (v : β) (m : List (α × β)) : List (α × β) :=
  (k, v) :: mapErase k m

def keyInsert {α : Type} [DecidableEq α] (k : α) (l : List α) : List α :=
  if k ∈ l then l else k :: l

def keyRemove {α : Type} [DecidableEq α] (k : α) (l : List α) : List α :=
  l.filter (fun x => decide (x ≠ k))

/-! ## Protocol data model (`src/protocol/src/lib.rs`)

`SwitchId` (`common::SwitchId`, a `u32`) and `VrfId` are embedded as `Nat`
with well-formedness bounds where serialization width matters.  A Rust
`String` is represented by the list of its UTF-8 bytes, a `Vec<u8>` by a
list of byte values. -/

/-- Reserved operator identifier, `protocol::CONFIGURATION_SWITCH_ID = 0`. -/
def CONFIGURATION_SWITCH_ID : Nat := 0

/-- The `protocol::Vrf` struct: `id`, `name` (UTF-8 bytes of the `String`),
`members : Vec<SwitchId>`. -/
structure Vrf where
  id : Nat
  name : List Nat
  members : List Nat
  deriving DecidableEq, Repr

/-- The `protocol::VrfAction` tagged union. -/
inductive VrfAction where
  | list (vrfs : Option (List Vrf))
  | create (vrf : Vrf)
  | delete (id : Nat)
  | addMember (id : Nat) (members : List Nat)
  | removeMember (id : Nat) (members : List Nat)
  deriving DecidableEq, Repr

/-- The `protocol::Data` struct: a raw Ethernet frame tagged with its VRF. -/
structure Data where
  vrf_id : Nat
  data : List Nat
  deriving DecidableEq, Repr

/-- The `protocol::Packet` tagged union (`Ping | VrfAction | Data`). -/
inductive Packet where
  | ping
  | vrfAction (action : VrfAction)
  | data (d : Data)
  deriving DecidableEq, Repr

/-! ## Wire encoding (`protocol::PacketSerializer`)

Modelled from the spec: the `PacketSerializer` trait in
`src/protocol/src/lib.rs` delegates to the external `bincode` crate, whose
encoding the spec fixes in section 6 — little-endian fixed-width integers
(`SwitchId` 32-bit, also taken for `VrfId` from the `common` crate that is
not under `src/`), `vec`/`bytes`/`string` as a 64-bit length prefix followed
by the elements, `option` as a one-byte discriminant, and enum variants as a
32-bit tag in declaration order.  `deU32`/`deU64` return `none` when the
input is too short, mirroring bincode's recoverable `bincode::Result`. -/

def serU32 (n : Nat) : List Nat :=
  [n % 256, n / 256 % 256, n / 65536 % 256, n / 16777216 % 256]

def serU64 (n : Nat) : List Nat :=
  [n % 256, n / 256 % 256, n / 65536 % 256, n / 16777216 % 256,
   n / 4294967296 % 256, n / 1099511627776 % 256, n / 281474976710656 % 256,
   n / 72057594037927936 % 256]

def deU32 : List Nat → Option (Nat × List Nat)
  | b0 :: b1 :: b2 :: b3 :: rest =>
    some (b0 + 256 * b1 + 65536 * b2 + 16777216 * b3, rest)
  | _ => none

def deU64 : List Nat → Option (Nat × List Nat)
  | b0 :: b1 :: b2 :: b3 :: b4 :: b5 :: b6 :: b7 :: rest =>
    some (b0 + 256 * b1 + 65536 * b2 + 16777216 * b3 + 4294967296 * b4 +
      1099511627776 * b5 + 281474976710656 * b6 + 72057594037927936 * b7, rest)
  | _ => none

/-- Byte payloads (`Vec<u8>` and the UTF-8 bytes of a `String`): 64-bit
length prefix followed by the raw bytes. -/
def serBytes (bs : List Nat) : List Nat := serU64 bs.length ++ bs

def deBytes (l : List Nat) : Option (List Nat × List Nat) :=
  match deU64 l with
  | some (n, r) => if n ≤ r.length then some (r.take n, r.drop n) else none
  | none => none

/-- Sequences (`Vec<T>`): 64-bit length prefix followed by the encoded
elements. -/
def serSeq {α : Type} (f : α → List Nat) (xs : List α) : List Nat :=
  serU64 xs.length ++ (xs.map f).flatten

def deCount {α : Type} (de : List Nat → Option (α × List Nat)) :
    Nat → List Nat → Option (List α × List Nat)
  | 0, l => some ([], l)
  | n + 1, l =>
    match de l with
    | some (x, r) =>
      match deCount de n r with
      | some (xs, r') => some (x :: xs, r')
      | none => none
    | none => none

def deSeq {α : Type} (de : List Nat → Option (α × List Nat)) (l : List Nat) :
    Option (List α × List Nat) :=
  match deU64 l with
  | some (n, r) => deCount de n r
  | none => none

/-- Options (`Option<T>`): one-byte discriminant, 0 for `None`, 1 for
`Some` followed by the payload. -/
def serOpt {α : Type} (f : α → List Nat) : Option α → List Nat
  | none => [0]
  | some x => 1 :: f x

def deOpt {α : Type} (de : List Nat → Option (α × List Nat)) (l : List Nat) :
    Option (Option α × List Nat) :=
  match l with
  | 0 :: r => some (none, r)
  | 1 :: r =>
    match de r with
    | some (x, r') => some (some x, r')
    | none => none
  | _ => none

def serVrf (v : Vrf) : List Nat :=
  serU32 v.id ++ serBytes v.name ++ serSeq serU32 v.members

def deVrf (l : List Nat) : Option (Vrf × List Nat) :=
  (deU32 l).bind fun p =>
    (deBytes p.2).bind fun q =>
      (deSeq deU32 q.2).map fun s => (⟨p.1, q.1, s.1⟩, s.2)

def serVrfAction : VrfAction → List Nat
  | .list o => serU32 0 ++ serOpt (serSeq serVrf) o
  | .create v => serU32 1 ++ serVrf v
  | .delete id => serU32 2 ++ serU32 id
  | .addMember id ms => serU32 3 ++ serU32 id ++ serSeq serU32 ms
  | .removeMember id ms => serU32 4 ++ serU32 id ++ serSeq serU32 ms

def deVrfAction (l : List Nat) : Option (VrfAction × List Nat) :=
  (deU32 l).bind fun p =>
    if p.1 = 0 then (deOpt (deSeq deVrf) p.2).map fun q => (.list q.1, q.2)
    else if p.1 = 1 then (deVrf p.2).map fun q => (.create q.1, q.2)
    else if p.1 = 2 then (deU32 p.2).map fun q => (.delete q.1, q.2)
    else if p.1 = 3 then
      (deU32 p.2).bind fun q =>
        (deSeq deU32 q.2).map fun s => (.addMember q.1 s.1, s.2)
    else if p.1 = 4 then
      (deU32 p.2).bind fun q =>
        (deSeq deU32 q.2).map fun s => (.removeMember q.1 s.1, s.2)
    else none

def serPacket : Packet → List Nat
  | .ping => serU32 0
  | .vrfAction a => serU32 1 ++ serVrfAction a
  | .data d => serU32 2 ++ serU32 d.vrf_id ++ serBytes d.data

def dePacket (l : List Nat) : Option (Packet × List Nat) :=
  (deU32 l).bind fun p =>
    if p.1 = 0 then some (.ping, p.2)
    else if p.1 = 1 then (deVrfAction p.2).map fun q => (.vrfAction q.1, q.2)
    else if p.1 = 2 then
      (deU32 p.2).bind fun q =>
        (deBytes q.2).map fun s => (.data ⟨q.1, s.1⟩, s.2)
    else none

/-- `Packet::serialize` / `Packet::deserialize` from `PacketSerializer`:
`bincode::deserialize` reads one value from the front of the slice and does
not reject trailing bytes. -/
def serializePacket (p : Packet) : List Nat := serPacket p

def deserializePacket (bs : List Nat) : Option Packet := (dePacket bs).map (·.1)

/-- `SwitchId::serialize` / `SwitchId::deserialize` (a `u32`). -/
def serializeSwitchId (s : Nat) : List Nat := serU32 s

def deserializeSwitchId (bs : List Nat) : Option Nat := (deU32 bs).map (·.1)

/-! Well-formedness of values as the Rust types bound them: every byte of a
`Vec<u8>`/`String` payload fits in a `u8`, ids fit in a `u32`, and lengths
fit in the `u64` length prefix (a `Vec` in memory cannot exceed `u64`). -/

def wfId (n : Nat) : Prop := n < 4294967296

def wfBytes (bs : List Nat) : Prop :=
  (∀ b ∈ bs, b < 256) ∧ bs.length < 18446744073709551616

def wfVrf (v : Vrf) : Prop :=
  wfId v.id ∧ wfBytes v.name ∧ (∀ m ∈ v.members, wfId m) ∧
    v.members.length < 18446744073709551616

def wfVrfAction : VrfAction → Prop
  | .list none => True
  | .list (some vs) => (∀ v ∈ vs, wfVrf v) ∧ vs.length < 18446744073709551616
  | .create v => wfVrf v
  | .delete id => wfId id
  | .addMember id ms =>
    wfId id ∧ (∀ m ∈ ms, wfId m) ∧ ms.length < 18446744073709551616
  | .removeMember id ms =>
    wfId id ∧ (∀ m ∈ ms, wfId m) ∧ ms.length < 18446744073709551616

def wfPacket : Packet → Prop
  | .ping => True
  | .vrfAction a => wfVrfAction a
  | .data d => wfId d.vrf_id ∧ wfBytes d.data

/-! ## Control-plane state and `process_vrf_action`
(`src/dwitch/src/socket/server.rs`)

The three shared tables touched by `process_vrf_action`: `VrfTable`
(`HashMap<VrfId, Vrf>`), `TapTable` (`HashMap<VrfId, Sender<_>>`, observed
through its key set), and `SwitchTable`
(`HashMap<VrfId, HashMap<[u8; 6], SwitchId>>`). -/

structure DState where
  vrfTable : List (Nat × Vrf)
  tapTable : List Nat
  switchTable : List (Nat × List (List Nat × Nat))
  deriving DecidableEq, Repr

def initialState : DState := ⟨[], [], []⟩

/-- The first half of the `VrfAction::Create` arm: if the local switch is a
member, `tap_table.insert(vrf.id, tap(..))` runs before
`vrf_table.insert(vrf.id, vrf)` does. -/
def createTapPhase (localId : Nat) (v : Vrf) (s : DState) : DState :=
  if localId ∈ v.members then { s with tapTable := keyInsert v.id s.tapTable } else s

/-- The `for new_member in members` loop of the `AddMember` arm: a tap is
inserted when the new member is the local switch, then the member is pushed
if absent.  The accumulator carries (tap table, member list). -/
def addMemberFold (localId vid : Nat) (ms : List Nat) (tap mem : List Nat) :
    List Nat × List Nat :=
  ms.foldl
    (fun acc m =>
      (if m = localId then keyInsert vid acc.1 else acc.1,
       if m ∈ acc.2 then acc.2 else acc.2 ++ [m]))
    (tap, mem)

/-- The `for old_member in members` loop of the `RemoveMember` arm: the tap
is removed when the old member is the local switch, then
`members.retain(|member| *member != old_member)` runs. -/
def removeMemberFold (localId vid : Nat) (ms : List Nat) (tap mem : List Nat) :
    List Nat × List Nat :=
  ms.foldl
    (fun acc m =>
      (if m = localId then keyRemove vid acc.1 else acc.1,
       acc.2.filter fun x => decide (x ≠ m)))
    (tap, mem)

/-- The state mutation performed by the `match vrf_action` block of
`process_vrf_action` (the `List` arm only replies on the stream; it does not
touch the tables). -/
def applyAction (localId : Nat) (s : DState) (a : VrfAction) : DState :=
  match a with
  | .list _ => s
  | .create v =>
    if mapLookup v.id s.vrfTable = none ∧ ∀ p ∈ s.vrfTable, p.2.name ≠ v.name then
      let s1 := createTapPhase localId v s
      { s1 with vrfTable := mapInsert v.id v s1.vrfTable }
    else s
  | .delete id =>
    { vrfTable := mapErase id s.vrfTable, tapTable := keyRemove id s.tapTable,
      switchTable := mapErase id s.switchTable }
  | .addMember id ms =>
    match mapLookup id s.vrfTable with
    | none => s
    | some vrf =>
      let acc := addMemberFold localId vrf.id ms s.tapTable vrf.members
      { s with tapTable := acc.1,
               vrfTable := mapInsert id { vrf with members := acc.2 } s.vrfTable }
  | .removeMember id ms =>
    match mapLookup id s.vrfTable with
    | none => s
    | some vrf =>
      let acc := removeMemberFold localId vrf.id ms s.tapTable vrf.members
      { s with tapTable := acc.1,
               vrfTable := mapInsert id { vrf with members := acc.2 } s.vrfTable }

def runActions (localId : Nat) (acts : List VrfAction) : DState :=
  acts.foldl (applyAction localId) initialState

/-- Discriminates the four mutating arms of the rebroadcast `match` at the
top of `process_vrf_action`; its wildcard arm covers `List`. -/
def isMutating : VrfAction → Bool
  | .list _ => false
  | _ => true

/-- Recipients of the operator rebroadcast: `broadcast_packet` sends the
packet to every entry of the `ClientTable` when the handshake-reported id is
`CONFIGURATION_SWITCH_ID` and the action is mutating. -/
def broadcastTargets (clientId : Nat) (registryKeys : List Nat) (a : VrfAction) :
    List Nat :=
  if clientId = CONFIGURATION_SWITCH_ID ∧ isMutating a then registryKeys else []

/-- Observable effects of one `process_vrf_action` call in order. -/
inductive ServerEvent where
  | sendToPeer (peerId : Nat) (p : Packet)
  | applyLocal (a : VrfAction)
  deriving DecidableEq, Repr

/-- One `process_vrf_action` call: the rebroadcast loop over the
`ClientTable` runs first (reading the registry of the pre-state), then the
`match vrf_action` block mutates the tables. -/
def processVrfAction (localId clientId : Nat) (registryKeys : List Nat)
    (s : DState) (a : VrfAction) : List ServerEvent × DState :=
  ((broadcastTargets clientId registryKeys a).map
      (fun k => .sendToPeer k (.vrfAction a)) ++ [.applyLocal a],
   applyAction localId s a)

/-! ## Data plane (`src/dwitch/src/tap.rs`)

The egress task of `tap_connection` reads a frame from the TAP, and the
ingress half receives `(SwitchId, Vec<u8>)` pairs from the worker's queue. -/

/-- `get_destination_mac`: the first six bytes (the egress path only calls
it on frames of at least 14 bytes). -/
def getDestinationMac (buffer : List Nat) : List Nat := buffer.take 6

/-- `get_source_mac` copies `buffer[6..12]`; that slice panics when the
buffer is shorter than 12 bytes, so the embedding returns `none` exactly
when the Rust code would panic. -/
def getSourceMacOpt (buffer : List Nat) : Option (List Nat) :=
  if 12 ≤ buffer.length then some ((buffer.drop 6).take 6) else none

/-- Learning-table lookup:
`switch_table.get(&vrf.id).and_then(|t| t.get(&mac).copied())`. -/
def switchLookup (st : List (Nat × List (List Nat × Nat))) (vid : Nat)
    (mac : List Nat) : Option Nat :=
  (mapLookup vid st).bind fun t => mapLookup mac t

/-- Learning-table update:
`switch_table.entry(vrf.id).or_default().insert(source_mac, switch_id)`. -/
def switchInsert (st : List (Nat × List (List Nat × Nat))) (vid : Nat)
    (mac : List Nat) (sid : Nat) : List (Nat × List (List Nat × Nat)) :=
  mapInsert vid (mapInsert mac sid ((mapLookup vid st).getD [])) st

/-- `broadcast_to_vrf`: enqueue the packet for every VRF member that has an
entry in the `ClientTable`. -/
def broadcastToVrf (vrf : Vrf) (pkt : Packet) (registryKeys : List Nat) :
    List (Nat × Packet) :=
  (vrf.members.filter fun m => decide (m ∈ registryKeys)).map fun m => (m, pkt)

/-- One iteration of the TAP-to-network task: frames of length 0 are skipped
and frames shorter than 14 bytes are dropped; otherwise the frame is
wrapped as `Data { vrf_id, data }` and either unicast to the learned peer
(if it has a registry entry — with no entry the packet is silently dropped)
or, when no `SwitchId` is learned, flooded via `broadcast_to_vrf`.  The
result lists the `(peer, packet)` queue sends performed. -/
def egress (vrf : Vrf) (st : List (Nat × List (List Nat × Nat)))
    (registryKeys : List Nat) (buffer : List Nat) : List (Nat × Packet) :=
  if buffer.length = 0 then []
  else if 14 ≤ buffer.length then
    match switchLookup st vrf.id (getDestinationMac buffer) with
    | some sid =>
      if sid ∈ registryKeys then [(sid, Packet.data ⟨vrf.id, buffer⟩)] else []
    | none => broadcastToVrf vrf (Packet.data ⟨vrf.id, buffer⟩) registryKeys
  else []

/-- One iteration of the network-to-TAP task: extract the source MAC from
bytes 6..12 (panicking — `none` — on payloads shorter than 12 bytes), learn
`(vrf.id, source_mac) -> origin`, and write the raw bytes to the TAP. -/
def tapIngress (vrf : Vrf) (st : List (Nat × List (List Nat × Nat)))
    (originId : Nat) (data : List Nat) :
    Option ((List (Nat × List (List Nat × Nat))) × List Nat) :=
  (getSourceMacOpt data).map fun mac => (switchInsert st vrf.id mac originId, data)

/-- The `Packet::Data` arm of `server_connection`: if a tap worker exists
for the VRF, `(client_switch_id, data.data)` is queued to it unchanged — no
length check is performed. -/
def serverDispatchData (tapKeys : List Nat) (clientId : Nat) (d : Data) :
    Option (Nat × List Nat) :=
  if d.vrf_id ∈ tapKeys then some (clientId, d.data) else none

/-! ## Outbound connection loop (`src/dwitch/src/socket/client.rs`)

Each iteration of the `loop` in `client` either fails to connect, fails the
identity handshake, or establishes a session: on establishment the peer's id
is inserted into the `ClientTable` and, when the session later ends (ping
deadline or peer close), control flows back to the top of the loop — the
function contains no removal from the `ClientTable`. -/

inductive ClientEvent where
  | connectFail
  | handshakeFail
  | session (peerId : Nat)
  deriving DecidableEq, Repr

/-- Effect of one iteration of the reconnect loop on the `ClientTable` key
set.  A `session peerId` iteration covers establishment, the multiplex
phase, and the session's end. -/
def clientIter (registry : List Nat) (e : ClientEvent) : List Nat :=
  match e with
  | .connectFail => registry
  | .handshakeFail => registry
  | .session peerId => keyInsert peerId registry

def clientRun (events : List ClientEvent) : List Nat :=
  events.foldl clientIter []

/-! ## Packet reception (`src/dwitch/src/socket/mod.rs`)

`recv_packet` returns `None` on a read error, on a zero-length read, and on
a deserialization error; `buffer.clear()` runs only after a successful
decode.  In `server_connection`'s `select!`, a `None` from `recv_packet`
fails the `Some(packet)` pattern, which disables that branch for the rest of
the `select!` call, so the `sleep(PING_TIMEOUT)` branch fires next and the
session breaks. -/

structure RecvResult where
  packet : Option Packet
  bufferCleared : Bool
  deriving DecidableEq, Repr

/-- `TcpStream::recv_packet`: the argument is the outcome of the underlying
`read` (`none` for an I/O error, otherwise the bytes read). -/
def recvPacket (readResult : Option (List Nat)) : RecvResult :=
  match readResult with
  | none => ⟨none, false⟩
  | some bytes =>
    if bytes.length = 0 then ⟨none, false⟩
    else
      match deserializePacket bytes with
      | none => ⟨none, false⟩
      | some p => ⟨some p, true⟩

inductive SessionOutcome where
  | processed (p : Packet)
  | closedAtPingDeadline
  deriving DecidableEq, Repr

/-- Outcome of one `select!` iteration of `server_connection` given the
`recv_packet` result: a decoded packet is processed; `None` disables the
receive branch, so the iteration ends with the `PING_TIMEOUT` sleep breaking
the session. -/
def serverSessionIter (r : RecvResult) : SessionOutcome :=
  match r.packet with
  | some p => .processed p
  | none => .closedAtPingDeadline

/-! ## Namespace creation (`src/netns/src/lib.rs`, `Netns::create_child`)

The child process runs a straight-line sequence of syscalls; the
environment fixes which of them succeed.  `markerPresent` tracks whether the
file `/run/netns/<name>` exists when `create_child` returns. -/

structure NetnsEnv where
  dirMissing : Bool
  mkdirOk : Bool
  mountShare1Ok : Bool
  mountBindDirOk : Bool
  mountShare2Ok : Bool
  openCreateOk : Bool
  closeOk : Bool
  unshareOk : Bool
  openSelfOk : Bool
  mountBindOk : Bool
  setnsOk : Bool
  unlinkOk : Bool
  deriving DecidableEq, Repr

inductive NetnsStep where
  | mkdirStep
  | mountShareStep
  | mountBindDirStep
  | openCreateStep
  | closeStep
  | unshareStep
  | openSelfStep
  | mountBindStep
  | setnsStep
  | unlinkStep
  deriving DecidableEq, Repr

structure CreateChildResult where
  failedAt : Option NetnsStep
  markerPresent : Bool
  deriving DecidableEq, Repr

/-- `Netns::create_child`: mkdir the netns directory if missing, make it a
shared mount point (falling back to a bind mount of the directory on
itself, then re-attempting the shared remount), create the marker file,
close its fd, `unshare(CLONE_NEWNET)`, open `/proc/self/ns/net`, bind-mount
it over the marker, and `setns` back.  After the marker exists, the close,
unshare, bind-mount and setns failure paths run `unlink(&netns_path)?`
before surfacing the error — but the `open(/proc/self/ns/net)` failure path
uses a bare `?` and surfaces without unlinking. -/
def createChild (env : NetnsEnv) : CreateChildResult :=
  if env.dirMissing ∧ ¬ env.mkdirOk then ⟨some .mkdirStep, false⟩
  else if ¬ env.mountShare1Ok ∧ ¬ env.mountBindDirOk then
    ⟨some .mountBindDirStep, false⟩
  else if ¬ env.mountShare2Ok then ⟨some .mountShareStep, false⟩
  else if ¬ env.openCreateOk then ⟨some .openCreateStep, false⟩
  else if ¬ env.closeOk then
    if env.unlinkOk then ⟨some .closeStep, false⟩ else ⟨some .unlinkStep, true⟩
  else if ¬ env.unshareOk then
    if env.unlinkOk then ⟨some .unshareStep, false⟩ else ⟨some .unlinkStep, true⟩
  else if ¬ env.openSelfOk then ⟨some .openSelfStep, true⟩
  else if ¬ env.mountBindOk then
    if env.unlinkOk then ⟨some .mountBindStep, false⟩ else ⟨some .unlinkStep, true⟩
  else if ¬ env.setnsOk then
    if env.unlinkOk then ⟨some .setnsStep, false⟩ else ⟨some .unlinkStep, true⟩
  else ⟨none, true⟩

/-! ## Invariant predicates used by the theorems below -/

/-- Keys of the `VrfTable` coincide with the `id` field of the stored `Vrf`:
`Create` inserts at key `vrf.id` and the member operations write back at the
key they looked up. -/
def idsConsistent (s : DState) : Prop :=
  ∀ k v, mapLookup k s.vrfTable = some v → v.id = k

/-- The local-membership / TAP-existence correspondence of spec section 8,
property 1. -/
def tapMatches (localId : Nat) (s : DState) : Prop :=
  ∀ t, t ∈ s.tapTable ↔
    ∃ v, mapLookup t s.vrfTable = some v ∧ localId ∈ v.members

/-- An action that mentions a given switch id in a supplied member list
(`Create`'s members or `AddMember`'s members). -/
def suppliesMember (m : Nat) : VrfAction → Prop
  | .create v => m ∈ v.members
  | .addMember _ ms => m ∈ ms
  | _ => False

/-! ## Lemmas about the association-list map model -/

theorem mapLookup_mapErase {α β : Type} [DecidableEq α] (k k' : α) (m : List (α × β)) :
    mapLookup k' (mapErase k m) = if k' = k then none else mapLookup k' m := by
  induction m with
  | nil => simp [mapErase, mapLookup]
  | cons p rest ih =>
    obtain ⟨a, b⟩ := p
    have hstep : mapErase k ((a, b) :: rest) =
        if a = k then mapErase k rest else (a, b) :: mapErase k rest := by
      by_cases hak : a = k <;> simp [mapErase, List.filter_cons, hak]
    rw [hstep]
    by_cases hak : a = k
    · rw [if_pos hak, ih]
      subst hak
      by_cases hk : k' = a
      · simp [hk]
      · simp [mapLookup, hk, show ¬ a = k' from fun h => hk h.symm]
    · rw [if_neg hak]
      by_cases hak' : a = k'
      · subst hak'
        simp [mapLookup, hak]
      · simp [mapLookup, hak', ih]

theorem mapLookup_mapInsert {α β : Type} [DecidableEq α] (k k' : α) (v : β)
    (m : List (α × β)) :
    mapLookup k' (mapInsert k v m) = if k' = k then some v else mapLookup k' m := by
  by_cases h : k' = k
  · subst h; simp [mapInsert, mapLookup]
  · simp [mapInsert, mapLookup, show ¬ k = k' from fun h' => h h'.symm,
      mapLookup_mapErase, h]

theorem mem_keyInsert {α : Type} [DecidableEq α] (k x : α) (l : List α) :
    x ∈ keyInsert k l ↔ x = k ∨ x ∈ l := by
  unfold keyInsert
  by_cases h : k ∈ l
  · rw [if_pos h]
    exact ⟨Or.inr, fun hx => hx.elim (fun he => he ▸ h) id⟩
  · simp [if_neg h]

theorem mem_keyRemove {α : Type} [DecidableEq α] (k x : α) (l : List α) :
    x ∈ keyRemove k l ↔ x ∈ l ∧ x ≠ k := by
  simp [keyRemove]

/-! ## Round-trip lemmas for the wire encoding -/

theorem deU32_serU32 (n : Nat) (r : List Nat) (h : n < 4294967296) :
    deU32 (serU32 n ++ r) = some (n, r) := by
  simp only [serU32, List.cons_append, List.nil_append, deU32, Option.some.injEq,
    Prod.mk.injEq, and_true]
  omega

theorem deU64_serU64 (n : Nat) (r : List Nat) (h : n < 18446744073709551616) :
    deU64 (serU64 n ++ r) = some (n, r) := by
  simp only [serU64, List.cons_append, List.nil_append, deU64, Option.some.injEq,
    Prod.mk.injEq, and_true]
  omega

theorem deBytes_serBytes (bs r : List Nat) (h : bs.length < 18446744073709551616) :
    deBytes (serBytes bs ++ r) = some (bs, r) := by
  unfold serBytes deBytes
  rw [List.append_assoc, deU64_serU64 _ _ h]
  simp [List.take_left, List.drop_left]

theorem deCount_flatten {α : Type} (de : List Nat → Option (α × List Nat))
    (f : α → List Nat) (xs : List α) (r : List Nat)
    (h : ∀ x ∈ xs, ∀ r', de (f x ++ r') = some (x, r')) :
    deCount de xs.length ((xs.map f).flatten ++ r) = some (xs, r) := by
  induction xs generalizing r with
  | nil => simp [deCount]
  | cons x xs ih =>
    have hx := h x (List.mem_cons_self x xs)
    simp only [List.map_cons, List.flatten_cons, List.length_cons, List.append_assoc]
    unfold deCount
    rw [hx]
    simp only [ih r fun y hy r' => h y (List.mem_cons_of_mem x hy) r']

theorem deSeq_serSeq {α : Type} (de : List Nat → Option (α × List Nat))
    (f : α → List Nat) (xs : List α) (r : List Nat)
    (hlen : xs.length < 18446744073709551616)
    (h : ∀ x ∈ xs, ∀ r', de (f x ++ r') = some (x, r')) :
    deSeq de (serSeq f xs ++ r) = some (xs, r) := by
  unfold serSeq deSeq
  rw [List.append_assoc, deU64_serU64 _ _ hlen]
  exact deCount_flatten de f xs r h

theorem deVrf_serVrf (v : Vrf) (r : List Nat) (h : wfVrf v) :
    deVrf (serVrf v ++ r) = some (v, r) := by
  obtain ⟨h1, h2, h3, h4⟩ := h
  unfold serVrf deVrf
  rw [List.append_assoc, List.append_assoc, deU32_serU32 _ _ h1]
  simp only [Option.some_bind]
  rw [deBytes_serBytes _ _ h2.2]
  simp only [Option.some_bind]
  rw [deSeq_serSeq deU32 serU32 v.members r h4 fun m hm r' =>
    deU32_serU32 m r' (h3 m hm)]
  rfl

theorem deOpt_serOpt {α : Type} (de : List Nat → Option (α × List Nat))
    (f : α → List Nat) (o : Option α) (r : List Nat)
    (h : ∀ x ∈ o, ∀ r', de (f x ++ r') = some (x, r')) :
    deOpt de (serOpt f o ++ r) = some (o, r) := by
  cases o with
  | none => simp [serOpt, deOpt]
  | some x =>
    simp only [serOpt, List.cons_append, deOpt]
    rw [h x rfl r]

theorem deVrfAction_serVrfAction (a : VrfAction) (r : List Nat) (h : wfVrfAction a) :
    deVrfAction (serVrfAction a ++ r) = some (a, r) := by
  cases a with
  | list o =>
    unfold serVrfAction deVrfAction
    rw [List.append_assoc, deU32_serU32 0 _ (by omega)]
    simp only [Option.some_bind, if_pos rfl]
    rw [deOpt_serOpt (deSeq deVrf) (serSeq serVrf) o r ?_]
    · simp
    · intro vs hvs r'
      cases o with
      | none => cases hvs
      | some vs' =>
        cases hvs
        exact deSeq_serSeq deVrf serVrf vs r' h.2 fun v hv r'' =>
          deVrf_serVrf v r'' (h.1 v hv)
  | create v =>
    unfold serVrfAction deVrfAction
    rw [List.append_assoc, deU32_serU32 1 _ (by omega)]
    simp only [Option.some_bind, if_neg (by omega : ¬ (1 : Nat) = 0), if_pos rfl]
    rw [deVrf_serVrf v r h]
    rfl
  | delete id =>
    unfold serVrfAction deVrfAction
    rw [List.append_assoc, deU32_serU32 2 _ (by omega)]
    simp only [Option.some_bind, if_neg (by omega : ¬ (2 : Nat) = 0),
      if_neg (by omega : ¬ (2 : Nat) = 1), if_pos rfl]
    rw [deU32_serU32 id r h]
    rfl
  | addMember id ms =>
    unfold serVrfAction deVrfAction
    rw [List.append_assoc, List.append_assoc, deU32_serU32 3 _ (by omega)]
    simp only [Option.some_bind, if_neg (by omega : ¬ (3 : Nat) = 0),
      if_neg (by omega : ¬ (3 : Nat) = 1), if_neg (by omega : ¬ (3 : Nat) = 2),
      if_pos rfl]
    rw [deU32_serU32 id _ h.1]
    simp only [Option.some_bind]
    rw [deSeq_serSeq deU32 serU32 ms r h.2.2 fun m hm r' =>
      deU32_serU32 m r' (h.2.1 m hm)]
    rfl
  | removeMember id ms =>
    unfold serVrfAction deVrfAction
    rw [List.append_assoc, List.append_assoc, deU32_serU32 4 _ (by omega)]
    simp only [Option.some_bind, if_neg (by omega : ¬ (4 : Nat) = 0),
      if_neg (by omega : ¬ (4 : Nat) = 1), if_neg (by omega : ¬ (4 : Nat) = 2),
      if_neg (by omega : ¬ (4 : Nat) = 3), if_pos rfl]
    rw [deU32_serU32 id _ h.1]
    simp only [Option.some_bind]
    rw [deSeq_serSeq deU32 serU32 ms r h.2.2 fun m hm r' =>
      deU32_serU32 m r' (h.2.1 m hm)]
    rfl

theorem dePacket_serPacket (p : Packet) (r : List Nat) (h : wfPacket p) :
    dePacket (serPacket p ++ r) = some (p, r) := by
  cases p with
  | ping =>
    unfold serPacket dePacket
    rw [deU32_serU32 0 _ (by omega)]
    rfl
  | vrfAction a =>
    unfold serPacket dePacket
    rw [List.append_assoc, deU32_serU32 1 _ (by omega)]
    simp only [Option.some_bind, if_neg (by omega : ¬ (1 : Nat) = 0), if_pos rfl]
    rw [deVrfAction_serVrfAction a r h]
    rfl
  | data d =>
    unfold serPacket dePacket
    rw [List.append_assoc, List.append_assoc, deU32_serU32 2 _ (by omega)]
    simp only [Option.some_bind, if_neg (by omega : ¬ (2 : Nat) = 0),
      if_neg (by omega : ¬ (2 : Nat) = 1), if_pos rfl]
    rw [deU32_serU32 d.vrf_id _ h.1]
    simp only [Option.some_bind]
    rw [deBytes_serBytes d.data r h.2.2]
    rfl

/-! ## Lemmas about the control-plane step -/

theorem createTapPhase_vrfTable (localId : Nat) (v : Vrf) (s : DState) :
    (createTapPhase localId v s).vrfTable = s.vrfTable := by
  unfold createTapPhase
  split <;> rfl

theorem mem_createTapPhase_tap (localId : Nat) (v : Vrf) (s : DState) (t : Nat) :
    t ∈ (createTapPhase localId v s).tapTable ↔
      (localId ∈ v.members ∧ t = v.id) ∨ t ∈ s.tapTable := by
  unfold createTapPhase
  by_cases h : localId ∈ v.members
  · simp [h, mem_keyInsert]
  · simp [h]

theorem mem_addMemberFold_tap (localId vid : Nat) (ms : List Nat) :
    ∀ (tap mem : List Nat) (x : Nat),
      x ∈ (addMemberFold localId vid ms tap mem).1 ↔
        x ∈ tap ∨ (x = vid ∧ localId ∈ ms) := by
  induction ms with
  | nil =>
    intro tap mem x
    simp [addMemberFold]
  | cons m ms ih =>
    intro tap mem x
    have hstep : addMemberFold localId vid (m :: ms) tap mem =
        addMemberFold localId vid ms
          (if m = localId then keyInsert vid tap else tap)
          (if m ∈ mem then mem else mem ++ [m]) := rfl
    rw [hstep, ih]
    by_cases hm : m = localId
    · subst hm
      rw [if_pos rfl]
      simp only [mem_keyInsert, List.mem_cons, eq_self_iff_true, true_or, and_true]
      tauto
    · simp only [if_neg hm, List.mem_cons]
      have hne : ¬ localId = m := fun h => hm h.symm
      tauto

theorem mem_addMemberFold_members (localId vid : Nat) (ms : List Nat) :
    ∀ (tap mem : List Nat) (x : Nat),
      x ∈ (addMemberFold localId vid ms tap mem).2 ↔ x ∈ mem ∨ x ∈ ms := by
  induction ms with
  | nil =>
    intro tap mem x
    simp [addMemberFold]
  | cons m ms ih =>
    intro tap mem x
    have hstep : addMemberFold localId vid (m :: ms) tap mem =
        addMemberFold localId vid ms
          (if m = localId then keyInsert vid tap else tap)
          (if m ∈ mem then mem else mem ++ [m]) := rfl
    rw [hstep, ih]
    by_cases hmem : m ∈ mem
    · simp only [if_pos hmem, List.mem_cons]
      constructor
      · tauto
      · rintro (hx | rfl | hx)
        · exact Or.inl hx
        · exact Or.inl hmem
        · exact Or.inr hx
    · simp only [if_neg hmem, List.mem_append, List.mem_singleton, List.mem_cons]
      tauto

theorem mem_removeMemberFold_tap (localId vid : Nat) (ms : List Nat) :
    ∀ (tap mem : List Nat) (x : Nat),
      x ∈ (removeMemberFold localId vid ms tap mem).1 ↔
        x ∈ tap ∧ ¬ (x = vid ∧ localId ∈ ms) := by
  induction ms with
  | nil =>
    intro tap mem x
    simp [removeMemberFold]
  | cons m ms ih =>
    intro tap mem x
    have hstep : removeMemberFold localId vid (m :: ms) tap mem =
        removeMemberFold localId vid ms
          (if m = localId then keyRemove vid tap else tap)
          (mem.filter fun y => decide (y ≠ m)) := rfl
    rw [hstep, ih]
    by_cases hm : m = localId
    · subst hm
      rw [if_pos rfl]
      simp only [mem_keyRemove, List.mem_cons, eq_self_iff_true, true_or, and_true]
      tauto
    · simp only [if_neg hm, List.mem_cons]
      have hne : ¬ localId = m := fun h => hm h.symm
      tauto

theorem mem_removeMemberFold_members (localId vid : Nat) (ms : List Nat) :
    ∀ (tap mem : List Nat) (x : Nat),
      x ∈ (removeMemberFold localId vid ms tap mem).2 ↔ x ∈ mem ∧ x ∉ ms := by
  induction ms with
  | nil =>
    intro tap mem x
    simp [removeMemberFold]
  | cons m ms ih =>
    intro tap mem x
    have hstep : removeMemberFold localId vid (m :: ms) tap mem =
        removeMemberFold localId vid ms
          (if m = localId then keyRemove vid tap else tap)
          (mem.filter fun y => decide (y ≠ m)) := rfl
    rw [hstep, ih]
    simp only [List.mem_filter, List.mem_cons, decide_eq_true_eq]
    tauto

theorem applyAction_idsConsistent (localId : Nat) (s : DState) (a : VrfAction)
    (h : idsConsistent s) : idsConsistent (applyAction localId s a) := by
  cases a with
  | list o => exact h
  | create v =>
    intro k w hw
    by_cases hc : mapLookup v.id s.vrfTable = none ∧ ∀ p ∈ s.vrfTable, p.2.name ≠ v.name
    · simp only [applyAction, if_pos hc] at hw
      rw [mapLookup_mapInsert, createTapPhase_vrfTable] at hw
      by_cases hk : k = v.id
      · rw [if_pos hk] at hw
        cases hw
        exact hk.symm
      · rw [if_neg hk] at hw
        exact h k w hw
    · simp only [applyAction, if_neg hc] at hw
      exact h k w hw
  | delete id =>
    intro k w hw
    simp only [applyAction] at hw
    rw [mapLookup_mapErase] at hw
    by_cases hk : k = id
    · rw [if_pos hk] at hw
      cases hw
    · rw [if_neg hk] at hw
      exact h k w hw
  | addMember id ms =>
    intro k w hw
    cases hl : mapLookup id s.vrfTable with
    | none => simp only [applyAction, hl] at hw; exact h k w hw
    | some vrf =>
      simp only [applyAction, hl] at hw
      rw [mapLookup_mapInsert] at hw
      by_cases hk : k = id
      · rw [if_pos hk] at hw
        cases hw
        exact (h id vrf hl) ▸ hk.symm
      · rw [if_neg hk] at hw
        exact h k w hw
  | removeMember id ms =>
    intro k w hw
    cases hl : mapLookup id s.vrfTable with
    | none => simp only [applyAction, hl] at hw; exact h k w hw
    | some vrf =>
      simp only [applyAction, hl] at hw
      rw [mapLookup_mapInsert] at hw
      by_cases hk : k = id
      · rw [if_pos hk] at hw
        cases hw
        exact (h id vrf hl) ▸ hk.symm
      · rw [if_neg hk] at hw
        exact h k w hw

theorem applyAction_tapMatches (localId : Nat) (s : DState) (a : VrfAction)
    (hids : idsConsistent s) (h : tapMatches localId s) :
    tapMatches localId (applyAction localId s a) := by
  cases a with
  | list o => exact h
  | create v =>
    intro t
    by_cases hc : mapLookup v.id s.vrfTable = none ∧ ∀ p ∈ s.vrfTable, p.2.name ≠ v.name
    · simp only [applyAction, if_pos hc]
      rw [mem_createTapPhase_tap, mapLookup_mapInsert, createTapPhase_vrfTable]
      by_cases hteq : t = v.id
      · rw [if_pos hteq]
        constructor
        · rintro (⟨hmem, _⟩ | ht)
          · exact ⟨v, rfl, hmem⟩
          · obtain ⟨w, hw, hwm⟩ := (h t).mp ht
            rw [hteq, hc.1] at hw
            cases hw
        · rintro ⟨w, hw, hwm⟩
          cases hw
          exact Or.inl ⟨hwm, hteq⟩
      · rw [if_neg hteq]
        constructor
        · rintro (⟨_, hvt⟩ | ht)
          · exact absurd hvt hteq
          · exact (h t).mp ht
        · intro hx
          exact Or.inr ((h t).mpr hx)
    · simp only [applyAction, if_neg hc]
      exact h t
  | delete id =>
    intro t
    simp only [applyAction]
    rw [mem_keyRemove, mapLookup_mapErase]
    by_cases hteq : t = id
    · simp [hteq]
    · rw [if_neg hteq]
      constructor
      · rintro ⟨ht, _⟩
        exact (h t).mp ht
      · intro hx
        exact ⟨(h t).mpr hx, hteq⟩
  | addMember id ms =>
    intro t
    cases hl : mapLookup id s.vrfTable with
    | none => simp only [applyAction, hl]; exact h t
    | some vrf =>
      have hvid : vrf.id = id := hids id vrf hl
      simp only [applyAction, hl]
      rw [mem_addMemberFold_tap, mapLookup_mapInsert, hvid]
      by_cases hteq : t = id
      · rw [if_pos hteq]
        have htap : t ∈ s.tapTable ↔ localId ∈ vrf.members := by
          rw [h t]
          constructor
          · rintro ⟨w, hw, hwm⟩
            rw [hteq, hl] at hw
            cases hw
            exact hwm
          · intro hm
            exact ⟨vrf, hteq ▸ hl, hm⟩
        rw [htap]
        constructor
        · rintro (hm | ⟨_, hms⟩)
          · refine ⟨_, rfl, ?_⟩
            rw [mem_addMemberFold_members]
            exact Or.inl hm
          · refine ⟨_, rfl, ?_⟩
            rw [mem_addMemberFold_members]
            exact Or.inr hms
        · rintro ⟨w, hw, hwm⟩
          cases hw
          rw [mem_addMemberFold_members] at hwm
          rcases hwm with hm | hms
          · exact Or.inl hm
          · exact Or.inr ⟨hteq, hms⟩
      · rw [if_neg hteq]
        constructor
        · rintro (ht | ⟨hvt, _⟩)
          · exact (h t).mp ht
          · exact absurd hvt hteq
        · intro hx
          exact Or.inl ((h t).mpr hx)
  | removeMember id ms =>
    intro t
    cases hl : mapLookup id s.vrfTable with
    | none => simp only [applyAction, hl]; exact h t
    | some vrf =>
      have hvid : vrf.id = id := hids id vrf hl
      simp only [applyAction, hl]
      rw [mem_removeMemberFold_tap, mapLookup_mapInsert, hvid]
      by_cases hteq : t = id
      · rw [if_pos hteq]
        have htap : t ∈ s.tapTable ↔ localId ∈ vrf.members := by
          rw [h t]
          constructor
          · rintro ⟨w, hw, hwm⟩
            rw [hteq, hl] at hw
            cases hw
            exact hwm
          · intro hm
            exact ⟨vrf, hteq ▸ hl, hm⟩
        rw [htap]
        constructor
        · rintro ⟨hm, hnot⟩
          refine ⟨_, rfl, ?_⟩
          rw [mem_removeMemberFold_members]
          exact ⟨hm, fun hms => hnot ⟨hteq, hms⟩⟩
        · rintro ⟨w, hw, hwm⟩
          cases hw
          rw [mem_removeMemberFold_members] at hwm
          exact ⟨hwm.1, fun hpair => hwm.2 hpair.2⟩
      · rw [if_neg hteq]
        constructor
        · rintro ⟨ht, _⟩
          exact (h t).mp ht
        · intro hx
          exact ⟨(h t).mpr hx, fun hpair => hteq hpair.1⟩

theorem runActions_invariants (localId : Nat) (acts : List VrfAction) :
    idsConsistent (runActions localId acts) ∧
      tapMatches localId (runActions localId acts) := by
  unfold runActions
  generalize hs : initialState = s0
  have h0 : idsConsistent s0 ∧ tapMatches localId s0 := by
    subst hs
    constructor
    · intro k v hv
      cases hv
    · intro t
      constructor
      · intro ht
        cases ht
      · rintro ⟨v, hv, _⟩
        cases hv
  clear hs
  induction acts generalizing s0 with
  | nil => exact h0
  | cons a acts ih =>
    simp only [List.foldl_cons]
    exact ih (applyAction localId s0 a)
      ⟨applyAction_idsConsistent localId s0 a h0.1,
        applyAction_tapMatches localId s0 a h0.1 h0.2⟩

theorem switchLookup_switchInsert (st : List (Nat × List (List Nat × Nat)))
    (vid : Nat) (mac : List Nat) (sid : Nat) :
    switchLookup (switchInsert st vid mac sid) vid mac = some sid := by
  unfold switchLookup switchInsert
  rw [mapLookup_mapInsert, if_pos rfl]
  simp only [Option.some_bind]
  rw [mapLookup_mapInsert, if_pos rfl]

/-! ## The claims -/

/-- C4: after any finite sequence of `Create`, `Delete`, `AddMember`,
`RemoveMember` (and `List`) operations applied to the initially empty
`VrfStore` and `TapManager`, the `TapManager` contains an entry for vrf id
`v` iff `v` is a key of the `VrfStore` and the local switch id is a member
of that VRF. -/
theorem C4_membership_tap_invariant (localId : Nat) (acts : List VrfAction) (v : Nat) :
    v ∈ (runActions localId acts).tapTable ↔
      ∃ vrf, mapLookup v (runActions localId acts).vrfTable = some vrf ∧
        localId ∈ vrf.members :=
  (runActions_invariants localId acts).2 v

/-- C2: contrary to the claim, the outbound reconnect loop of `client` never
removes a peer from the `ClientTable` — after a session to peer 5 was
established and ended (so the loop restarted and the next connect attempt
failed), the entry for 5 is still present. -/
theorem C2_registry_entry_persists :
    clientRun [.session 5, .connectFail] = [5] ∧
      5 ∈ clientRun [.session 5, .connectFail] := by decide

/-- C3: contrary to the claim, the ingress step is not total — the server's
`Data` arm queues an empty payload to the tap worker unchecked, and
`get_source_mac` then slices `data[6..12]` out of bounds (`none` models the
panic of `copy_from_slice` on the out-of-range slice). -/
theorem C3_short_payload_panics :
    serverDispatchData [10] 2 ⟨10, []⟩ = some (2, []) ∧
      getSourceMacOpt [] = none ∧
      tapIngress ⟨10, [118], [1, 2]⟩ [] 2 [] = none := by decide

/-- C10: evaluation of `create_child` over every single-failure
environment after the marker file exists: the close, unshare, bind-mount
and setns failures unlink the marker before surfacing, but a failure of
`open(/proc/self/ns/net)` surfaces with the marker file still present,
contradicting the claim. -/
theorem C10_netns_cleanup_evaluation :
    createChild ⟨false, true, true, true, true, true, true, true, false, true, true, true⟩ =
      ⟨some .openSelfStep, true⟩ ∧
    createChild ⟨false, true, true, true, true, true, false, true, true, true, true, true⟩ =
      ⟨some .closeStep, false⟩ ∧
    createChild ⟨false, true, true, true, true, true, true, false, true, true, true, true⟩ =
      ⟨some .unshareStep, false⟩ ∧
    createChild ⟨false, true, true, true, true, true, true, true, true, false, true, true⟩ =
      ⟨some .mountBindStep, false⟩ ∧
    createChild ⟨false, true, true, true, true, true, true, true, true, true, false, true⟩ =
      ⟨some .setnsStep, false⟩ ∧
    createChild ⟨false, true, true, true, true, true, true, true, true, true, true, true⟩ =
      ⟨none, true⟩ := by decide

/-- C1 counterexample: the learning table maps the destination MAC of the
frame to switch 7, switch 7 has no registry entry, and member 2 does have a
registry entry — the claim requires the packet to be flooded to member 2,
but the egress loop sends nothing at all. -/
theorem C1_egress_counterexample :
    switchLookup [(10, [([187, 187, 187, 187, 187, 187], 7)])] 10
        (getDestinationMac
          [187, 187, 187, 187, 187, 187, 170, 170, 170, 170, 170, 170, 8, 0]) =
      some 7 ∧
    (7 : Nat) ∉ ([2] : List Nat) ∧ (2 : Nat) ∈ [1, 2] ∧ (2 : Nat) ∈ ([2] : List Nat) ∧
    egress ⟨10, [118], [1, 2]⟩ [(10, [([187, 187, 187, 187, 187, 187], 7)])] [2]
      [187, 187, 187, 187, 187, 187, 170, 170, 170, 170, 170, 170, 8, 0] = [] := by
  decide

/-- C5 counterexample: `process_vrf_action` applies
`Create(Vrf { id := 1, members := [0, 2] })` without filtering the reserved
id 0, so 0 ends up in the stored member set; likewise the outbound loop
registers whatever id the handshake reports, including 0. -/
theorem C5_zero_id_counterexample :
    (∃ vrf, mapLookup 1 (runActions 3 [.create ⟨1, [97], [0, 2]⟩]).vrfTable =
        some vrf ∧ 0 ∈ vrf.members) ∧
      0 ∈ clientRun [.session 0] :=
  ⟨⟨⟨1, [97], [0, 2]⟩, by decide, by decide⟩, by decide⟩

/-- C9 counterexample: on an undecodable packet `recv_packet` returns with
the buffer not cleared (the `buffer.clear()` call is only reached after a
successful decode), and the session's `select!` then closes at the ping
deadline instead of continuing to process packets. -/
theorem C9_decode_error_counterexample :
    recvPacket (some [255, 255, 255, 255]) = ⟨none, false⟩ ∧
      serverSessionIter (recvPacket (some [255, 255, 255, 255])) =
        .closedAtPingDeadline := by decide

/-- C1 (amended): the egress loop unicasts when the learned peer has a
registry entry, sends nothing at all when a peer is learned but has no
registry entry, and floods to the registered VRF members only when no peer
is learned; learning correctness holds — after ingress of a frame from
`origin`, an egress frame destined to that frame's source MAC is unicast to
`origin` alone (provided `origin` is registered). -/
theorem C1_egress_amended (vrf : Vrf) (st : List (Nat × List (List Nat × Nat)))
    (registryKeys : List Nat) (buffer : List Nat) (h14 : 14 ≤ buffer.length) :
    (∀ sid, switchLookup st vrf.id (getDestinationMac buffer) = some sid →
      (sid ∈ registryKeys →
        egress vrf st registryKeys buffer = [(sid, .data ⟨vrf.id, buffer⟩)]) ∧
      (sid ∉ registryKeys → egress vrf st registryKeys buffer = [])) ∧
    (switchLookup st vrf.id (getDestinationMac buffer) = none →
      egress vrf st registryKeys buffer =
        broadcastToVrf vrf (.data ⟨vrf.id, buffer⟩) registryKeys) ∧
    (∀ origin data, 12 ≤ data.length →
      getDestinationMac buffer = (data.drop 6).take 6 → origin ∈ registryKeys →
      tapIngress vrf st origin data =
        some (switchInsert st vrf.id ((data.drop 6).take 6) origin, data) ∧
      egress vrf (switchInsert st vrf.id ((data.drop 6).take 6) origin)
        registryKeys buffer = [(origin, .data ⟨vrf.id, buffer⟩)]) := by
  have hne : ¬ buffer.length = 0 := by omega
  refine ⟨fun sid hs => ⟨fun hin => ?_, fun hout => ?_⟩, fun hnone => ?_,
    fun origin data h12 hmac hin => ⟨?_, ?_⟩⟩
  · unfold egress
    rw [if_neg hne, if_pos h14]
    simp only [hs]
    rw [if_pos hin]
  · unfold egress
    rw [if_neg hne, if_pos h14]
    simp only [hs]
    rw [if_neg hout]
  · unfold egress
    rw [if_neg hne, if_pos h14]
    simp only [hnone]
  · unfold tapIngress getSourceMacOpt
    rw [if_pos h12]
    rfl
  · have hl : switchLookup (switchInsert st vrf.id ((data.drop 6).take 6) origin)
        vrf.id (getDestinationMac buffer) = some origin := by
      rw [hmac]
      exact switchLookup_switchInsert st vrf.id ((data.drop 6).take 6) origin
    unfold egress
    rw [if_neg hne, if_pos h14]
    simp only [hl]
    rw [if_pos hin]

theorem C1_egress_amended_witness :
    egress ⟨10, [118], [1, 2]⟩ [(10, [([187, 187, 187, 187, 187, 187], 7)])] [7]
        [187, 187, 187, 187, 187, 187, 170, 170, 170, 170, 170, 170, 8, 0] =
      [(7, .data ⟨10, [187, 187, 187, 187, 187, 187, 170, 170, 170, 170, 170, 170,
        8, 0]⟩)] :=
  ((C1_egress_amended ⟨10, [118], [1, 2]⟩
      [(10, [([187, 187, 187, 187, 187, 187], 7)])] [7]
      [187, 187, 187, 187, 187, 187, 170, 170, 170, 170, 170, 170, 8, 0]
      (by decide)).1 7 (by decide)).1 (by decide)

theorem applyAction_noZero (localId : Nat) (s : DState) (a : VrfAction)
    (ha : ¬ suppliesMember 0 a)
    (h : ∀ k vrf, mapLookup k s.vrfTable = some vrf → 0 ∉ vrf.members) :
    ∀ k vrf, mapLookup k (applyAction localId s a).vrfTable = some vrf →
      0 ∉ vrf.members := by
  cases a with
  | list o => exact h
  | create v =>
    intro k vrf hv
    by_cases hc : mapLookup v.id s.vrfTable = none ∧ ∀ p ∈ s.vrfTable, p.2.name ≠ v.name
    · simp only [applyAction, if_pos hc] at hv
      rw [mapLookup_mapInsert, createTapPhase_vrfTable] at hv
      by_cases hk : k = v.id
      · rw [if_pos hk] at hv
        cases hv
        exact ha
      · rw [if_neg hk] at hv
        exact h k vrf hv
    · simp only [applyAction, if_neg hc] at hv
      exact h k vrf hv
  | delete id =>
    intro k vrf hv
    simp only [applyAction] at hv
    rw [mapLookup_mapErase] at hv
    by_cases hk : k = id
    · rw [if_pos hk] at hv
      cases hv
    · rw [if_neg hk] at hv
      exact h k vrf hv
  | addMember id ms =>
    intro k vrf hv
    cases hl : mapLookup id s.vrfTable with
    | none => simp only [applyAction, hl] at hv; exact h k vrf hv
    | some vrf0 =>
      simp only [applyAction, hl] at hv
      rw [mapLookup_mapInsert] at hv
      by_cases hk : k = id
      · rw [if_pos hk] at hv
        cases hv
        intro h0
        rw [mem_addMemberFold_members] at h0
        rcases h0 with h0 | h0
        · exact h id vrf0 hl h0
        · exact ha h0
      · rw [if_neg hk] at hv
        exact h k vrf hv
  | removeMember id ms =>
    intro k vrf hv
    cases hl : mapLookup id s.vrfTable with
    | none => simp only [applyAction, hl] at hv; exact h k vrf hv
    | some vrf0 =>
      simp only [applyAction, hl] at hv
      rw [mapLookup_mapInsert] at hv
      by_cases hk : k = id
      · rw [if_pos hk] at hv
        cases hv
        intro h0
        rw [mem_removeMemberFold_members] at h0
        exact h id vrf0 hl h0.1
      · rw [if_neg hk] at hv
        exact h k vrf hv

/-- C5 (amended): neither `process_vrf_action` nor the outbound client loop
filters the reserved id 0, so 0 appears in a stored member set or in the
registry exactly when some action supplied it or some handshake reported
it; when no action supplies 0 and no handshake reports 0, the claimed
invariant does hold. -/
theorem C5_zero_id_amended (localId : Nat) (acts : List VrfAction)
    (h : ∀ a ∈ acts, ¬ suppliesMember 0 a) :
    (∀ k vrf, mapLookup k (runActions localId acts).vrfTable = some vrf →
      0 ∉ vrf.members) ∧
    ∀ evs : List ClientEvent, (∀ e ∈ evs, e ≠ .session 0) → 0 ∉ clientRun evs := by
  constructor
  · unfold runActions
    suffices hgen : ∀ (acts : List VrfAction) (s0 : DState),
        (∀ a ∈ acts, ¬ suppliesMember 0 a) →
        (∀ k vrf, mapLookup k s0.vrfTable = some vrf → 0 ∉ vrf.members) →
        ∀ k vrf,
          mapLookup k (acts.foldl (applyAction localId) s0).vrfTable = some vrf →
            0 ∉ vrf.members by
      exact hgen acts initialState h fun k vrf hv => by cases hv
    intro acts
    induction acts with
    | nil => intro s0 _ h0; exact h0
    | cons a acts ih =>
      intro s0 hall h0
      simp only [List.foldl_cons]
      exact ih _ (fun b hb => hall b (List.mem_cons_of_mem a hb))
        (applyAction_noZero localId s0 a (hall a (List.mem_cons_self a acts)) h0)
  · intro evs hevs
    unfold clientRun
    suffices hgen : ∀ (evs : List ClientEvent) (r : List Nat),
        (∀ e ∈ evs, e ≠ .session 0) → 0 ∉ r → 0 ∉ evs.foldl clientIter r by
      exact hgen evs [] hevs (by simp)
    intro evs
    induction evs with
    | nil => intro r _ h0; exact h0
    | cons e evs ih =>
      intro r hall h0
      simp only [List.foldl_cons]
      refine ih _ (fun x hx => hall x (List.mem_cons_of_mem e hx)) ?_
      cases e with
      | connectFail => exact h0
      | handshakeFail => exact h0
      | session p =>
        have hp : ¬ p = 0 := by
          intro hp0
          exact hall (.session p) (List.mem_cons_self _ _) (by rw [hp0])
        simp only [clientIter]
        rw [mem_keyInsert]
        rintro (h0p | hr)
        · exact hp h0p.symm
        · exact h0 hr

theorem C5_zero_id_amended_witness :
    (∀ k vrf, mapLookup k (runActions 3 [.create ⟨1, [97], [2]⟩]).vrfTable =
        some vrf → 0 ∉ vrf.members) ∧
      0 ∉ clientRun [.session 5] := by
  have h := C5_zero_id_amended 3 [.create ⟨1, [97], [2]⟩] (by
    intro a ha
    rw [List.mem_singleton] at ha
    subst ha
    show (0 : Nat) ∉ [2]
    decide)
  exact ⟨h.1, h.2 [.session 5] (by decide)⟩

/-- C6: a mutating `VrfAction` arriving with handshake id
`CONFIGURATION_SWITCH_ID` is sent to every entry of the registry, and those
sends all precede the local mutation in the event list; `List` is never
rebroadcast, and a mutating action from a non-zero handshake id is not
rebroadcast. -/
theorem C6_operator_broadcast (localId clientId : Nat) (registryKeys : List Nat)
    (s : DState) (a : VrfAction) :
    (clientId = CONFIGURATION_SWITCH_ID → isMutating a = true →
      processVrfAction localId clientId registryKeys s a =
        ((registryKeys.map fun k => .sendToPeer k (.vrfAction a)) ++
            [.applyLocal a],
          applyAction localId s a)) ∧
    (∀ o, a = .list o →
      (processVrfAction localId clientId registryKeys s a).1 = [.applyLocal a]) ∧
    (clientId ≠ CONFIGURATION_SWITCH_ID →
      (processVrfAction localId clientId registryKeys s a).1 = [.applyLocal a]) := by
  refine ⟨fun h0 hm => ?_, fun o ho => ?_, fun hne => ?_⟩
  · unfold processVrfAction broadcastTargets
    rw [if_pos ⟨h0, hm⟩]
  · subst ho
    simp [processVrfAction, broadcastTargets, isMutating]
  · simp [processVrfAction, broadcastTargets, hne]

theorem C6_operator_broadcast_witness :
    processVrfAction 1 0 [4, 9] initialState (.delete 7) =
      ([.sendToPeer 4 (.vrfAction (.delete 7)), .sendToPeer 9 (.vrfAction (.delete 7)),
        .applyLocal (.delete 7)],
        applyAction 1 initialState (.delete 7)) := by
  have h := (C6_operator_broadcast 1 0 [4, 9] initialState (.delete 7)).1 rfl rfl
  rw [h]
  rfl

/-- C7: `Create(v)` is a no-op when `v.id` is present or the name is taken;
otherwise it inserts `v`, creating the tap entry (when the local switch is a
member) in a phase in which the insertion is not yet observable; applying
the two duplicate-name creates of scenario S4 to the empty state leaves
only id 1. -/
theorem C7_create_semantics :
    (∀ (localId : Nat) (v : Vrf) (s : DState),
      ¬ (mapLookup v.id s.vrfTable = none ∧ ∀ p ∈ s.vrfTable, p.2.name ≠ v.name) →
      applyAction localId s (.create v) = s) ∧
    (∀ (localId : Nat) (v : Vrf) (s : DState),
      mapLookup v.id s.vrfTable = none → (∀ p ∈ s.vrfTable, p.2.name ≠ v.name) →
      applyAction localId s (.create v) =
        { createTapPhase localId v s with
            vrfTable := mapInsert v.id v (createTapPhase localId v s).vrfTable } ∧
      mapLookup v.id (applyAction localId s (.create v)).vrfTable = some v ∧
      (localId ∈ v.members →
        v.id ∈ (createTapPhase localId v s).tapTable ∧
        mapLookup v.id (createTapPhase localId v s).vrfTable = none ∧
        v.id ∈ (applyAction localId s (.create v)).tapTable) ∧
      (localId ∉ v.members →
        (applyAction localId s (.create v)).tapTable = s.tapTable)) ∧
    runActions 5 [.create ⟨1, [97], []⟩, .create ⟨2, [97], []⟩] =
      ⟨[(1, ⟨1, [97], []⟩)], [], []⟩ := by
  refine ⟨fun localId v s hc => ?_, fun localId v s h1 h2 => ?_, by decide⟩
  · simp only [applyAction, if_neg hc]
  · have hc : mapLookup v.id s.vrfTable = none ∧
        ∀ p ∈ s.vrfTable, p.2.name ≠ v.name := ⟨h1, h2⟩
    refine ⟨by simp only [applyAction, if_pos hc], ?_, fun hm => ⟨?_, ?_, ?_⟩,
      fun hm => ?_⟩
    · simp only [applyAction, if_pos hc]
      show mapLookup v.id (mapInsert v.id v (createTapPhase localId v s).vrfTable) =
        some v
      rw [mapLookup_mapInsert, if_pos rfl]
    · rw [mem_createTapPhase_tap]
      exact Or.inl ⟨hm, rfl⟩
    · rw [createTapPhase_vrfTable]
      exact h1
    · simp only [applyAction, if_pos hc]
      show v.id ∈ (createTapPhase localId v s).tapTable
      rw [mem_createTapPhase_tap]
      exact Or.inl ⟨hm, rfl⟩
    · simp only [applyAction, if_pos hc]
      show (createTapPhase localId v s).tapTable = s.tapTable
      unfold createTapPhase
      rw [if_neg hm]

theorem C7_create_semantics_witness :
    applyAction 4 ⟨[(1, ⟨1, [97], []⟩)], [], []⟩ (.create ⟨2, [97], [4]⟩) =
      ⟨[(1, ⟨1, [97], []⟩)], [], []⟩ ∧
    mapLookup 3 (applyAction 4 ⟨[(1, ⟨1, [97], []⟩)], [], []⟩
        (.create ⟨3, [98], [4]⟩)).vrfTable = some ⟨3, [98], [4]⟩ := by
  constructor
  · refine (C7_create_semantics).1 4 ⟨2, [97], [4]⟩ ⟨[(1, ⟨1, [97], []⟩)], [], []⟩ ?_
    intro hcc
    exact hcc.2 (1, ⟨1, [97], []⟩) (by decide) rfl
  · exact ((C7_create_semantics).2.1 4 ⟨3, [98], [4]⟩ ⟨[(1, ⟨1, [97], []⟩)], [], []⟩
      (by decide) (by decide)).2.1

/-- C8: `decode(encode(p)) = p` for every well-formed `Packet`,
`decode(encode(s)) = s` for every `SwitchId` (`u32`), the encoder is a total
function, and undecodable bytes yield a recoverable `none` (e.g. an unknown
tag). -/
theorem C8_serialization_round_trip :
    (∀ p : Packet, wfPacket p → deserializePacket (serializePacket p) = some p) ∧
    (∀ s : Nat, s < 4294967296 →
      deserializeSwitchId (serializeSwitchId s) = some s) ∧
    deserializePacket [255, 255, 255, 255] = none := by
  refine ⟨fun p hp => ?_, fun s hs => ?_, by decide⟩
  · unfold deserializePacket serializePacket
    rw [show serPacket p = serPacket p ++ [] from (List.append_nil _).symm,
      dePacket_serPacket p [] hp]
    rfl
  · unfold deserializeSwitchId serializeSwitchId
    rw [show serU32 s = serU32 s ++ [] from (List.append_nil _).symm,
      deU32_serU32 s [] hs]
    rfl

theorem C8_serialization_round_trip_witness :
    deserializePacket (serializePacket (.vrfAction (.create ⟨1, [97], [2, 3]⟩))) =
      some (.vrfAction (.create ⟨1, [97], [2, 3]⟩)) ∧
    deserializeSwitchId (serializeSwitchId 7) = some 7 := by
  constructor
  · refine C8_serialization_round_trip.1 _ ?_
    simp only [wfPacket, wfVrfAction, wfVrf, wfBytes, wfId]
    decide
  · exact C8_serialization_round_trip.2.1 7 (by omega)

/-- C9 (amended): on a decode error the error is logged and `recv_packet`
returns with the buffer not cleared (clearing happens only after a
successful decode); the `None` then disables the receive branch of the
session's `select!`, so the session stops processing packets and closes at
the next ping deadline (`PING_TIMEOUT` = 10 s) — even after a single
undecodable packet.  Successfully decoded packets clear the buffer and are
processed. -/
theorem C9_decode_error_amended (bytes : List Nat) :
    (deserializePacket bytes = none → bytes ≠ [] →
      recvPacket (some bytes) = ⟨none, false⟩ ∧
      serverSessionIter (recvPacket (some bytes)) = .closedAtPingDeadline) ∧
    (∀ p, deserializePacket bytes = some p →
      recvPacket (some bytes) = ⟨some p, true⟩ ∧
      serverSessionIter (recvPacket (some bytes)) = .processed p) := by
  constructor
  · intro hd hne
    have hlen : ¬ bytes.length = 0 := fun h => hne (List.length_eq_zero.mp h)
    have hr : recvPacket (some bytes) = ⟨none, false⟩ := by
      simp only [recvPacket, if_neg hlen, hd]
    exact ⟨hr, by rw [hr]; rfl⟩
  · intro p hp
    have hne : bytes ≠ [] := by
      intro h
      subst h
      simp [deserializePacket, dePacket, deU32] at hp
    have hlen : ¬ bytes.length = 0 := fun h => hne (List.length_eq_zero.mp h)
    have hr : recvPacket (some bytes) = ⟨some p, true⟩ := by
      simp only [recvPacket, if_neg hlen, hp]
    exact ⟨hr, by rw [hr]; rfl⟩

theorem C9_decode_error_amended_witness :
    recvPacket (some [255, 255, 255, 255]) = ⟨none, false⟩ ∧
      recvPacket (some [0, 0, 0, 0]) = ⟨some .ping, true⟩ :=
  ⟨((C9_decode_error_amended [255, 255, 255, 255]).1 (by decide) (by decide)).1,
    ((C9_decode_error_amended [0, 0, 0, 0]).2 .ping (by decide)).1⟩

end Dwitch
